import Mathlib

/-!
Verification of the adversarial attack loop `attack_detector` in
`mmdet/apis/train.py` (fork feng-y16/mmdetection).

Shallow embedding conventions:
* An image tensor is a function `ι → ℚ` over a finite nonempty index type
  (one rational pixel value per index); tensor arithmetic is pointwise.
* The model is an oracle: `accOf` returns the `acc` entry of the result
  mapping for the current image, `gradOf` returns the gradient
  `imgs.grad` accumulated on the image by the backward passes of one
  attack iteration.
* The IEEE-float corner case (division by a zero gradient maximum) is
  modelled separately with the `TVal` type, which carries NaN and the
  infinities; the main model uses exact rationals.
* Fallible dictionary access (`result['acc']`, which raises `KeyError`
  when the key is absent) is modelled with `Except`, the error payload
  being the observable `acc_list` state at the crash.
-/

section AttackLoopDefs

variable {ι : Type} [Fintype ι] [Nonempty ι]

/-- `torch.max(torch.abs(g))`: the maximum absolute pixel value of a
gradient tensor (train.py line 278). -/
def maxAbs (g : ι → ℚ) : ℚ :=
  Finset.univ.sup' Finset.univ_nonempty fun i => |g i|

/-- One perturbation step of the attack (train.py line 278):
`imgs = imgs + args.epsilon / args.num_attack_iter * imgs.grad / torch.max(torch.abs(imgs.grad))`,
with the gradient of the current image given by the oracle `gradOf`. -/
def attackUpdate (gradOf : (ι → ℚ) → (ι → ℚ)) (epsilon : ℚ) (num_attack_iter : ℕ)
    (imgs : ι → ℚ) : ι → ℚ :=
  fun i => imgs i + epsilon / (num_attack_iter : ℚ) * gradOf imgs i / maxAbs (gradOf imgs)

/-- The inner attack loop of `attack_detector` (train.py lines 262-281) for one
batch: runs `t` iterations; each iteration records `result['acc']` for the
current image into `acc_list` and then perturbs the image.  Returns the final
image together with `acc_list`. -/
def attackLoop (accOf : (ι → ℚ) → ℚ) (gradOf : (ι → ℚ) → (ι → ℚ))
    (epsilon : ℚ) (num_attack_iter : ℕ) : ℕ → (ι → ℚ) → (ι → ℚ) × List ℚ
  | 0, imgs => (imgs, [])
  | t + 1, imgs =>
    let r := attackLoop accOf gradOf epsilon num_attack_iter t
      (attackUpdate gradOf epsilon num_attack_iter imgs)
    (r.1, accOf imgs :: r.2)

end AttackLoopDefs

/-- A torch floating-point scalar: a finite (here exact rational) value, NaN,
or a signed infinity.  Used to model the numerical behaviour of line 278 when
`torch.max(torch.abs(imgs.grad))` is zero. -/
inductive TVal : Type
  | fin : ℚ → TVal
  | nan : TVal
  | posinf : TVal
  | neginf : TVal
deriving DecidableEq

/-- IEEE-style addition on `TVal` (NaN propagates, opposite infinities give NaN). -/
def TVal.add : TVal → TVal → TVal
  | nan, _ => nan
  | _, nan => nan
  | posinf, neginf => nan
  | neginf, posinf => nan
  | posinf, _ => posinf
  | _, posinf => posinf
  | neginf, _ => neginf
  | _, neginf => neginf
  | fin a, fin b => fin (a + b)

/-- IEEE-style multiplication on `TVal` (NaN propagates, `0 * inf = NaN`). -/
def TVal.mul : TVal → TVal → TVal
  | nan, _ => nan
  | _, nan => nan
  | fin a, fin b => fin (a * b)
  | fin a, posinf => if a = 0 then nan else if 0 < a then posinf else neginf
  | posinf, fin b => if b = 0 then nan else if 0 < b then posinf else neginf
  | fin a, neginf => if a = 0 then nan else if 0 < a then neginf else posinf
  | neginf, fin b => if b = 0 then nan else if 0 < b then neginf else posinf
  | posinf, posinf => posinf
  | posinf, neginf => neginf
  | neginf, posinf => neginf
  | neginf, neginf => posinf

/-- IEEE-style division on `TVal`: `0 / 0 = NaN`, `x / 0 = ±inf` for `x ≠ 0`,
NaN propagates, `inf / inf = NaN`. -/
def TVal.div : TVal → TVal → TVal
  | nan, _ => nan
  | _, nan => nan
  | fin a, fin b =>
    if b = 0 then (if a = 0 then nan else if 0 < a then posinf else neginf)
    else fin (a / b)
  | fin _, posinf => fin 0
  | fin _, neginf => fin 0
  | posinf, fin b => if 0 ≤ b then posinf else neginf
  | neginf, fin b => if 0 ≤ b then neginf else posinf
  | posinf, posinf => nan
  | posinf, neginf => nan
  | neginf, posinf => nan
  | neginf, neginf => nan

/-- `torch.abs` on a scalar `TVal`. -/
def TVal.abs : TVal → TVal
  | fin a => fin |a|
  | nan => nan
  | posinf => posinf
  | neginf => posinf

/-- Binary maximum on `TVal` (NaN propagates, as in torch reductions). -/
def TVal.maxv : TVal → TVal → TVal
  | nan, _ => nan
  | _, nan => nan
  | posinf, _ => posinf
  | _, posinf => posinf
  | neginf, b => b
  | a, neginf => a
  | fin a, fin b => fin (max a b)

/-- `torch.max(torch.abs(grad))` over a tensor of `TVal` pixels. -/
def tmaxAbs (grad : List TVal) : TVal :=
  (grad.map TVal.abs).foldr TVal.maxv (TVal.fin 0)

/-- Line 278 of train.py in float semantics, pixelwise over a `TVal` tensor:
`imgs + args.epsilon / args.num_attack_iter * imgs.grad / torch.max(torch.abs(imgs.grad))`. -/
def attackStepT (epsilon : ℚ) (num_attack_iter : ℕ) (imgs grad : List TVal) : List TVal :=
  List.zipWith
    (fun p g =>
      p.add ((((TVal.fin epsilon).div (TVal.fin num_attack_iter)).mul g).div (tmaxAbs grad)))
    imgs grad

/-- The inner attack loop with the fallible dictionary access made explicit
(train.py lines 263-281): each iteration looks up `result['acc']` in the model
result mapping; a missing key is Python's `KeyError`, modelled as `Except.error`
carrying the `acc_list` state observable at the crash, before anything is
appended for that iteration.  On success the value is appended and the image is
perturbed. -/
def attackLoopE {α : Type} (modelResult : α → List (String × ℚ)) (stepImg : α → α) :
    ℕ → α → List ℚ → Except (List ℚ) (α × List ℚ)
  | 0, imgs, acc_list => Except.ok (imgs, acc_list)
  | t + 1, imgs, acc_list =>
    match (modelResult imgs).lookup "acc" with
    | none => Except.error acc_list
    | some a => attackLoopE modelResult stepImg t (stepImg imgs) (acc_list ++ [a])

/-- The removal loop of train.py lines 245-247: `for f in file_list:
os.remove(os.path.join(args.save_path, f))`, with a directory modelled as the
list of file names it contains. -/
def removeFiles (dir : List String) (file_list : List String) : List String :=
  file_list.foldl (fun d f => d.erase f) dir

/-- Train.py lines 244-247: when `args.clear_output` is set, list the save
directory and remove every listed file before the batch loop starts; otherwise
leave the directory untouched. -/
def clearOutputStep (clear_output : Bool) (dir : List String) : List String :=
  if clear_output then removeFiles dir dir else dir

/-- One pixel of the per-channel denormalization of train.py lines 286-288:
`imgs[k] = imgs[k] * imgs_std[k] + imgs_mean[k]`. -/
def denormPixel (x std mean : ℚ) : ℚ := x * std + mean

/-- Modelled from the spec: the data source's per-channel normalization
`norm(x) = (x - mean) / std` is not part of this file (it lives in the dataset
pipeline), so it is taken from the spec's wording. -/
def normPixelSpec (x std mean : ℚ) : ℚ := (x - mean) / std

/-- The 3-channel denormalization loop of train.py lines 286-288 applied to one
pixel position of each channel. -/
def denormChannels (imgs imgs_std imgs_mean : Fin 3 → ℚ) : Fin 3 → ℚ :=
  fun k => denormPixel (imgs k) (imgs_std k) (imgs_mean k)

/-- The batch-level bookkeeping of `attack_detector` (train.py lines 248, 253-255,
282-283, 299-300): `max_batch = min(len(attack_loader), args.max_attack_batches)`;
the enumeration breaks once `i >= max_batch`; each processed batch contributes
`acc_list[0]` to `acc_before_attack` and `acc_list[-1]` to `acc_under_attack`;
both totals are finally divided by `max_batch`.  Input: the per-batch accuracy
traces the inner loop produced.  Output: the processed traces and the two
reported means. -/
def attackAggregate (traces : List (List ℚ)) (max_attack_batches : ℕ) :
    List (List ℚ) × ℚ × ℚ :=
  let max_batch := min traces.length max_attack_batches
  let processed := traces.take max_batch
  let acc_before_attack := processed.foldl (fun s t => s + t.headD 0) 0
  let acc_under_attack := processed.foldl (fun s t => s + t.getLastD 0) 0
  (processed, acc_before_attack / (max_batch : ℚ), acc_under_attack / (max_batch : ℚ))

/-- The `cfg.data` fields `attack_detector` touches (train.py lines 239-240). -/
structure DataCfg where
  workers_per_gpu : ℕ
  imgs_per_gpu : ℕ
deriving DecidableEq

/-- The part of the training configuration object relevant to
`attack_detector`. -/
structure TrainCfg where
  data : DataCfg
deriving DecidableEq

/-- Train.py lines 239-240: `cfg.data.workers_per_gpu = 0` and
`cfg.data.imgs_per_gpu = 1`, an unconditional in-place mutation of the caller's
configuration object. -/
def setAttackDataCfg (cfg : TrainCfg) : TrainCfg :=
  { cfg with data := { cfg.data with workers_per_gpu := 0, imgs_per_gpu := 1 } }

/-- Train.py lines 239-242: the configuration after mutation together with the
`imgs_per_gpu` (batch size) and `workers_per_gpu` arguments passed to
`build_dataloader`. -/
def attackLoaderArgs (cfg : TrainCfg) : TrainCfg × ℕ × ℕ :=
  (setAttackDataCfg cfg, (setAttackDataCfg cfg).data.imgs_per_gpu,
    (setAttackDataCfg cfg).data.workers_per_gpu)

section AttackLoopLemmas

variable {ι : Type} [Fintype ι] [Nonempty ι]

theorem abs_le_maxAbs (g : ι → ℚ) (i : ι) : |g i| ≤ maxAbs g := by
  unfold maxAbs
  exact Finset.le_sup' (fun j => |g j|) (Finset.mem_univ i)

theorem maxAbs_nonneg (g : ι → ℚ) : 0 ≤ maxAbs g := by
  rcases (exists_true_iff_nonempty.mpr ‹Nonempty ι›) with ⟨i, _⟩
  exact le_trans (abs_nonneg (g i)) (abs_le_maxAbs g i)

theorem attackLoop_fst (accOf : (ι → ℚ) → ℚ) (gradOf : (ι → ℚ) → (ι → ℚ))
    (epsilon : ℚ) (n : ℕ) :
    ∀ (t : ℕ) (imgs : ι → ℚ),
      (attackLoop accOf gradOf epsilon n t imgs).1 =
        (attackUpdate gradOf epsilon n)^[t] imgs := by
  intro t
  induction t with
  | zero => intro imgs; rfl
  | succ t ih =>
    intro imgs
    rw [attackLoop, Function.iterate_succ_apply]
    exact ih _

theorem attackLoop_snd (accOf : (ι → ℚ) → ℚ) (gradOf : (ι → ℚ) → (ι → ℚ))
    (epsilon : ℚ) (n : ℕ) :
    ∀ (t : ℕ) (imgs : ι → ℚ),
      (attackLoop accOf gradOf epsilon n t imgs).2 =
        (List.range t).map fun k => accOf ((attackUpdate gradOf epsilon n)^[k] imgs) := by
  intro t
  induction t with
  | zero => intro imgs; rfl
  | succ t ih =>
    intro imgs
    rw [attackLoop, ih, List.range_succ_eq_map, List.map_cons, List.map_map]
    simp [Function.comp, Function.iterate_succ_apply]

/-- Per-pixel change of one attack step is at most `epsilon / num_attack_iter`
whenever the gradient maximum is positive. -/
theorem attackUpdate_pixel_bound (gradOf : (ι → ℚ) → (ι → ℚ)) (epsilon : ℚ)
    (n : ℕ) (imgs : ι → ℚ) (i : ι) (heps : 0 ≤ epsilon)
    (hpos : 0 < maxAbs (gradOf imgs)) :
    |attackUpdate gradOf epsilon n imgs i - imgs i| ≤ epsilon / (n : ℚ) := by
  have hstep : attackUpdate gradOf epsilon n imgs i - imgs i =
      epsilon / (n : ℚ) * gradOf imgs i / maxAbs (gradOf imgs) := by
    simp [attackUpdate]
  rw [hstep, abs_div, abs_mul, abs_of_pos hpos]
  have hq : |gradOf imgs i| / maxAbs (gradOf imgs) ≤ 1 :=
    (div_le_one hpos).mpr (abs_le_maxAbs (gradOf imgs) i)
  have hnn : (0 : ℚ) ≤ |epsilon / (n : ℚ)| := abs_nonneg _
  calc |epsilon / (n : ℚ)| * |gradOf imgs i| / maxAbs (gradOf imgs)
      = |epsilon / (n : ℚ)| * (|gradOf imgs i| / maxAbs (gradOf imgs)) := by
        rw [mul_div_assoc]
    _ ≤ |epsilon / (n : ℚ)| * 1 := by
        exact mul_le_mul_of_nonneg_left hq hnn
    _ = epsilon / (n : ℚ) := by
        rw [mul_one, abs_of_nonneg (div_nonneg heps (Nat.cast_nonneg n))]

theorem attackIterate_bound (gradOf : (ι → ℚ) → (ι → ℚ)) (epsilon : ℚ)
    (n : ℕ) (heps : 0 ≤ epsilon)
    (hgrad : ∀ im : ι → ℚ, 0 < maxAbs (gradOf im)) :
    ∀ (t : ℕ) (imgs : ι → ℚ) (i : ι),
      |(attackUpdate gradOf epsilon n)^[t] imgs i - imgs i| ≤
        (t : ℚ) * (epsilon / (n : ℚ)) := by
  intro t
  induction t with
  | zero => intro imgs i; simp
  | succ t ih =>
    intro imgs i
    rw [Function.iterate_succ_apply']
    have h1 := attackUpdate_pixel_bound gradOf epsilon n
      ((attackUpdate gradOf epsilon n)^[t] imgs) i heps (hgrad _)
    have h2 := ih imgs i
    have htri :
        |attackUpdate gradOf epsilon n ((attackUpdate gradOf epsilon n)^[t] imgs) i - imgs i| ≤
          |attackUpdate gradOf epsilon n ((attackUpdate gradOf epsilon n)^[t] imgs) i -
              (attackUpdate gradOf epsilon n)^[t] imgs i| +
            |(attackUpdate gradOf epsilon n)^[t] imgs i - imgs i| :=
      abs_sub_le _ _ _
    have hsum :
        |attackUpdate gradOf epsilon n ((attackUpdate gradOf epsilon n)^[t] imgs) i - imgs i| ≤
          epsilon / (n : ℚ) + (t : ℚ) * (epsilon / (n : ℚ)) :=
      le_trans htri (add_le_add h1 h2)
    calc |attackUpdate gradOf epsilon n ((attackUpdate gradOf epsilon n)^[t] imgs) i - imgs i|
        ≤ epsilon / (n : ℚ) + (t : ℚ) * (epsilon / (n : ℚ)) := hsum
      _ = ((t : ℚ) + 1) * (epsilon / (n : ℚ)) := by ring
      _ = ((t + 1 : ℕ) : ℚ) * (epsilon / (n : ℚ)) := by push_cast; ring

end AttackLoopLemmas

/-- Concrete accuracy oracle used by witnesses. -/
def wAcc : (Fin 1 → ℚ) → ℚ := fun _ => 0

/-- Concrete gradient oracle used by witnesses: constant gradient 1. -/
def wGrad : (Fin 1 → ℚ) → (Fin 1 → ℚ) := fun _ _ => 1

/-- Concrete initial image used by witnesses. -/
def wImg : Fin 1 → ℚ := fun _ => 3

theorem wGrad_maxAbs_pos : ∀ im : Fin 1 → ℚ, 0 < maxAbs (wGrad im) := by
  intro im
  have h := abs_le_maxAbs (wGrad im) 0
  have h1 : |wGrad im 0| = 1 := by simp [wGrad]
  rw [h1] at h
  exact lt_of_lt_of_le one_pos h

/-- C1: each attack iteration changes every pixel by at most
`epsilon / num_attack_iter` (the step is the gradient scaled by
`epsilon / num_attack_iter` and divided by its maximum absolute value), and the
cumulative perturbation after all `num_attack_iter` iterations is at most
`epsilon` in max-norm, independent of the iteration count. -/
theorem attack_perturbation_within_budget {ι : Type} [Fintype ι] [Nonempty ι]
    (accOf : (ι → ℚ) → ℚ) (gradOf : (ι → ℚ) → (ι → ℚ))
    (epsilon : ℚ) (num_attack_iter : ℕ) (imgs : ι → ℚ) (i : ι)
    (heps : 0 ≤ epsilon) (hn : 0 < num_attack_iter)
    (hgrad : ∀ im : ι → ℚ, 0 < maxAbs (gradOf im)) :
    (∀ t : ℕ,
      |(attackLoop accOf gradOf epsilon num_attack_iter (t + 1) imgs).1 i -
          (attackLoop accOf gradOf epsilon num_attack_iter t imgs).1 i| ≤
        epsilon / (num_attack_iter : ℚ)) ∧
    |(attackLoop accOf gradOf epsilon num_attack_iter num_attack_iter imgs).1 i -
        imgs i| ≤ epsilon := by
  constructor
  · intro t
    rw [attackLoop_fst, attackLoop_fst, Function.iterate_succ_apply']
    exact attackUpdate_pixel_bound gradOf epsilon num_attack_iter _ i heps (hgrad _)
  · rw [attackLoop_fst]
    have h := attackIterate_bound gradOf epsilon num_attack_iter heps hgrad
      num_attack_iter imgs i
    have hne : ((num_attack_iter : ℚ)) ≠ 0 := by
      exact_mod_cast Nat.pos_iff_ne_zero.mp hn
    have heq : (num_attack_iter : ℚ) * (epsilon / (num_attack_iter : ℚ)) = epsilon := by
      field_simp
    rw [heq] at h
    exact h

theorem attack_perturbation_within_budget_witness :
    (0 : ℚ) ≤ 1 ∧ 0 < 2 ∧
    |(attackLoop wAcc wGrad 1 2 2 wImg).1 0 - wImg 0| ≤ 1 := by
  refine ⟨by norm_num, by norm_num, ?_⟩
  exact (attack_perturbation_within_budget wAcc wGrad 1 2 wImg 0
    (by norm_num) (by norm_num) wGrad_maxAbs_pos).2

/-- C3: at every attack iteration, the next image equals the current image plus
`epsilon / num_attack_iter` times the gradient of the current image divided by
that gradient's maximum absolute value. -/
theorem attack_iteration_update_formula {ι : Type} [Fintype ι] [Nonempty ι]
    (accOf : (ι → ℚ) → ℚ) (gradOf : (ι → ℚ) → (ι → ℚ))
    (epsilon : ℚ) (num_attack_iter : ℕ) (t : ℕ) (imgs : ι → ℚ) (i : ι) :
    (attackLoop accOf gradOf epsilon num_attack_iter (t + 1) imgs).1 i =
      (attackLoop accOf gradOf epsilon num_attack_iter t imgs).1 i +
        epsilon / (num_attack_iter : ℚ) *
          gradOf ((attackLoop accOf gradOf epsilon num_attack_iter t imgs).1) i /
          maxAbs (gradOf ((attackLoop accOf gradOf epsilon num_attack_iter t imgs).1)) := by
  rw [attackLoop_fst, attackLoop_fst, Function.iterate_succ_apply']
  rfl

theorem attack_iteration_update_formula_witness :
    (attackLoop wAcc wGrad 1 2 1 wImg).1 0 =
      (attackLoop wAcc wGrad 1 2 0 wImg).1 0 +
        1 / ((2 : ℕ) : ℚ) * wGrad ((attackLoop wAcc wGrad 1 2 0 wImg).1) 0 /
          maxAbs (wGrad ((attackLoop wAcc wGrad 1 2 0 wImg).1)) :=
  attack_iteration_update_formula wAcc wGrad 1 2 0 wImg 0

theorem getLastD_map_range {β : Type} (f : ℕ → β) (d : β) (n : ℕ) (hn : 0 < n) :
    ((List.range n).map f).getLastD d = f (n - 1) := by
  obtain ⟨m, rfl⟩ := Nat.exists_eq_succ_of_ne_zero (Nat.pos_iff_ne_zero.mp hn)
  rw [List.range_succ, List.map_append]
  simp

/-- C4: for every batch, `acc_list` has length exactly `num_attack_iter`, its
first element is the accuracy of the unperturbed image, and its last element is
the accuracy of the image after `num_attack_iter - 1` perturbation steps (the
post-attack reading the code reports). -/
theorem acc_trace_length_and_endpoints {ι : Type} [Fintype ι] [Nonempty ι]
    (accOf : (ι → ℚ) → ℚ) (gradOf : (ι → ℚ) → (ι → ℚ))
    (epsilon : ℚ) (num_attack_iter : ℕ) (imgs : ι → ℚ)
    (hn : 0 < num_attack_iter) :
    (attackLoop accOf gradOf epsilon num_attack_iter num_attack_iter imgs).2.length =
      num_attack_iter ∧
    (attackLoop accOf gradOf epsilon num_attack_iter num_attack_iter imgs).2.headD 0 =
      accOf imgs ∧
    (attackLoop accOf gradOf epsilon num_attack_iter num_attack_iter imgs).2.getLastD 0 =
      accOf ((attackUpdate gradOf epsilon num_attack_iter)^[num_attack_iter - 1] imgs) := by
  rw [attackLoop_snd]
  obtain ⟨m, rfl⟩ := Nat.exists_eq_succ_of_ne_zero (Nat.pos_iff_ne_zero.mp hn)
  refine ⟨by simp, ?_, ?_⟩
  · rw [List.range_succ_eq_map, List.map_cons]
    simp
  · rw [getLastD_map_range _ _ _ (Nat.succ_pos m)]

theorem acc_trace_length_and_endpoints_witness :
    0 < 2 ∧ (attackLoop wAcc wGrad 1 2 2 wImg).2.length = 2 :=
  ⟨by norm_num, (acc_trace_length_and_endpoints wAcc wGrad 1 2 wImg (by norm_num)).1⟩

/-- C9: with `num_attack_iter = 1` and `epsilon = 0`, the post-attack accuracy
contributed to the running totals (`acc_list[-1]`) equals the pre-attack
accuracy contributed (`acc_list[0]`). -/
theorem zero_budget_single_iter_acc {ι : Type} [Fintype ι] [Nonempty ι]
    (accOf : (ι → ℚ) → ℚ) (gradOf : (ι → ℚ) → (ι → ℚ)) (imgs : ι → ℚ) :
    (attackLoop accOf gradOf 0 1 1 imgs).2.headD 0 =
      (attackLoop accOf gradOf 0 1 1 imgs).2.getLastD 0 := by
  simp [attackLoop]

theorem zero_budget_single_iter_acc_witness :
    (attackLoop wAcc wGrad 0 1 1 wImg).2.headD 0 =
      (attackLoop wAcc wGrad 0 1 1 wImg).2.getLastD 0 :=
  zero_budget_single_iter_acc wAcc wGrad wImg

theorem foldl_add_eq_sum (f : List ℚ → ℚ) :
    ∀ (l : List (List ℚ)) (c : ℚ), l.foldl (fun s t => s + f t) c = c + (l.map f).sum := by
  intro l
  induction l with
  | nil => intro c; simp
  | cons x xs ih => intro c; simp [ih, add_assoc]

/-- C5: `attack_detector` processes exactly `min(len(data_source),
max_attack_batches)` batches; the reported means are the sums of the per-batch
first and last `acc_list` values over the processed batches, divided by that
same processed-batch count; when the data source has exactly
`max_attack_batches` batches the means are the arithmetic means over exactly
that many per-batch values. -/
theorem attack_batch_count_and_mean (traces : List (List ℚ)) (max_attack_batches : ℕ) :
    (attackAggregate traces max_attack_batches).1.length =
      min traces.length max_attack_batches ∧
    (attackAggregate traces max_attack_batches).2.1 =
      ((attackAggregate traces max_attack_batches).1.map (fun t => t.headD 0)).sum /
        (((attackAggregate traces max_attack_batches).1.length : ℚ)) ∧
    (attackAggregate traces max_attack_batches).2.2 =
      ((attackAggregate traces max_attack_batches).1.map (fun t => t.getLastD 0)).sum /
        (((attackAggregate traces max_attack_batches).1.length : ℚ)) ∧
    (traces.length = max_attack_batches →
      (attackAggregate traces max_attack_batches).2.1 =
        (traces.map (fun t => t.headD 0)).sum / (max_attack_batches : ℚ) ∧
      (attackAggregate traces max_attack_batches).2.2 =
        (traces.map (fun t => t.getLastD 0)).sum / (max_attack_batches : ℚ)) := by
  have hlen : (traces.take (min traces.length max_attack_batches)).length =
      min traces.length max_attack_batches := by
    rw [List.length_take]
    exact Nat.min_eq_left (Nat.min_le_left _ _)
  refine ⟨?_, ?_, ?_, ?_⟩
  · simp [attackAggregate]
  · simp only [attackAggregate]
    rw [hlen, foldl_add_eq_sum, zero_add]
  · simp only [attackAggregate]
    rw [hlen, foldl_add_eq_sum, zero_add]
  · intro hN
    subst hN
    constructor <;>
      simp [attackAggregate, Nat.min_self, List.take_length, foldl_add_eq_sum]

theorem attack_batch_count_and_mean_witness :
    (([[(1 : ℚ), 2], [3]] : List (List ℚ)).length = 2) ∧
    (attackAggregate [[(1 : ℚ), 2], [3]] 2).2.1 =
      (([[(1 : ℚ), 2], [3]] : List (List ℚ)).map (fun t => t.headD 0)).sum / ((2 : ℕ) : ℚ) :=
  ⟨rfl, ((attack_batch_count_and_mean [[(1 : ℚ), 2], [3]] 2).2.2.2 rfl).1⟩

/-- C6: when the model result mapping has no `acc` key, the attack loop fails
fatally at that iteration (Python `KeyError` on `result['acc']`): no recovery
happens and no accuracy value is recorded for that iteration — the error
payload is exactly the `acc_list` accumulated before it. -/
theorem missing_acc_key_fatal {α : Type} (modelResult : α → List (String × ℚ))
    (stepImg : α → α) (t : ℕ) (imgs : α) (acc_list : List ℚ)
    (h : (modelResult imgs).lookup "acc" = none) :
    attackLoopE modelResult stepImg (t + 1) imgs acc_list = Except.error acc_list := by
  rw [attackLoopE, h]

theorem missing_acc_key_fatal_witness :
    (((fun _ : Unit => [("loss", (1 : ℚ))]) ()).lookup "acc" = none) ∧
    attackLoopE (fun _ : Unit => [("loss", (1 : ℚ))]) id 1 () [] = Except.error [] :=
  ⟨rfl, missing_acc_key_fatal (fun _ : Unit => [("loss", (1 : ℚ))]) id 0 () [] rfl⟩

theorem foldl_erase_perm :
    ∀ (r d : List String), d.Perm r → r.foldl (fun l f => l.erase f) d = [] := by
  intro r
  induction r with
  | nil =>
    intro d hd
    simpa using hd.eq_nil
  | cons x r ih =>
    intro d hd
    have hx : x ∈ d := hd.mem_iff.mpr (List.mem_cons_self x r)
    have hperm : (d.erase x).Perm r :=
      List.Perm.cons_inv ((List.perm_cons_erase hx).symm.trans hd)
    simpa using ih (d.erase x) hperm

/-- C7: with `clear_output` set, the removal loop empties the save directory
before the batch loop (and hence before any image write); without it, no
pre-existing file is removed. -/
theorem clear_output_spec (dir : List String) :
    clearOutputStep true dir = [] ∧ clearOutputStep false dir = dir := by
  constructor
  · exact foldl_erase_perm dir dir (List.Perm.refl dir)
  · rfl

/-- C8: the per-channel denormalization `pixel * std[k] + mean[k]` of
train.py lines 286-288 exactly inverts the data source's normalization
`(pixel - mean[k]) / std[k]` whenever each channel's std is nonzero. -/
theorem denorm_inverse_of_norm (imgs_std imgs_mean x : Fin 3 → ℚ)
    (h : ∀ k, imgs_std k ≠ 0) (k : Fin 3) :
    denormChannels (fun j => normPixelSpec (x j) (imgs_std j) (imgs_mean j))
      imgs_std imgs_mean k = x k := by
  unfold denormChannels denormPixel normPixelSpec
  rw [div_mul_cancel₀ _ (h k)]
  ring

theorem denorm_inverse_of_norm_witness :
    ((fun _ : Fin 3 => (2 : ℚ)) 0 ≠ 0) ∧
    denormChannels
      (fun j => normPixelSpec ((fun _ : Fin 3 => (5 : ℚ)) j) ((fun _ : Fin 3 => (2 : ℚ)) j)
        ((fun _ : Fin 3 => (3 : ℚ)) j))
      (fun _ : Fin 3 => (2 : ℚ)) (fun _ : Fin 3 => (3 : ℚ)) 0 = 5 :=
  ⟨by norm_num,
    denorm_inverse_of_norm (fun _ : Fin 3 => (2 : ℚ)) (fun _ : Fin 3 => (3 : ℚ))
      (fun _ : Fin 3 => (5 : ℚ)) (fun _ => by norm_num) 0⟩

/-- C10: `attack_detector` unconditionally overwrites the caller's
`cfg.data.workers_per_gpu` with 0 and `cfg.data.imgs_per_gpu` with 1 before
building the data loader, so the loader is built with batch size 1 and the
caller's configuration object is changed whenever it held different values. -/
theorem attack_cfg_mutation (cfg : TrainCfg) :
    (attackLoaderArgs cfg).1.data.workers_per_gpu = 0 ∧
    (attackLoaderArgs cfg).1.data.imgs_per_gpu = 1 ∧
    (attackLoaderArgs cfg).2.1 = 1 ∧
    (attackLoaderArgs cfg).2.2 = 0 ∧
    (cfg.data.imgs_per_gpu ≠ 1 ∨ cfg.data.workers_per_gpu ≠ 0 →
      setAttackDataCfg cfg ≠ cfg) := by
  refine ⟨rfl, rfl, rfl, rfl, ?_⟩
  intro h heq
  have h1 : (setAttackDataCfg cfg).data.imgs_per_gpu = cfg.data.imgs_per_gpu := by
    rw [heq]
  have h2 : (setAttackDataCfg cfg).data.workers_per_gpu = cfg.data.workers_per_gpu := by
    rw [heq]
  rcases h with h | h
  · exact h h1.symm
  · exact h h2.symm

theorem attack_cfg_mutation_witness :
    ((⟨⟨4, 8⟩⟩ : TrainCfg).data.imgs_per_gpu ≠ 1 ∨
      (⟨⟨4, 8⟩⟩ : TrainCfg).data.workers_per_gpu ≠ 0) ∧
    setAttackDataCfg ⟨⟨4, 8⟩⟩ ≠ (⟨⟨4, 8⟩⟩ : TrainCfg) :=
  ⟨Or.inl (by decide), (attack_cfg_mutation ⟨⟨4, 8⟩⟩).2.2.2.2 (Or.inl (by decide))⟩

/-- C2 (code evidence): when the image gradient is identically zero at some
iteration, line 278 computes `grad / torch.max(torch.abs(grad)) = 0 / 0 = NaN`
pixelwise and writes the NaN image back silently — the step is a total
computation producing NaN perturbations, not a fatal abort with a
diagnostic. -/
theorem zero_gradient_step_silently_nan :
    attackStepT 1 2 [TVal.fin 5, TVal.fin 7] [TVal.fin 0, TVal.fin 0] =
      [TVal.nan, TVal.nan] := by
  norm_num [attackStepT, tmaxAbs, TVal.add, TVal.mul, TVal.div, TVal.abs, TVal.maxv]
